import Mathlib

/-!
Verification of the lecture-feedback session registry and its event
coordinator.

The registry (`sessions.js`) keeps two JavaScript `Map`s:
  * `sessions : Map<code, {teacherSocketId, clients, createdAt}>`
  * `socketToSession : Map<socketId, {code, role}>`
We embed a JavaScript `Map` as an association list `List (String × α)`:
`set` replaces the first binding in place or appends (preserving the
insertion order exactly as `Map.set` does), `delete` removes the first
binding, `get` returns the first binding, `has` tests for a binding and
`size` is the list length (bindings built through this interface have
distinct keys, mirroring a real `Map`).

The event coordinator (`index.js`) is embedded as pure step functions on
a coordinator state holding the `lastFeedbackTime` map next to the
registry; `Date.now()` becomes an explicit integer argument.
-/

namespace LectureFeedback

/-- `Map.get`: first binding of the key, if any. -/
def lookupA {α : Type} (k : String) : List (String × α) → Option α
  | [] => none
  | (k', v) :: t => if k' = k then some v else lookupA k t

/-- `Map.set`: replace the first binding in place, or append. -/
def setA {α : Type} (k : String) (v : α) : List (String × α) → List (String × α)
  | [] => [(k, v)]
  | (k', v') :: t => if k' = k then (k, v) :: t else (k', v') :: setA k v t

/-- `Map.delete`: remove the first binding of the key. -/
def eraseA {α : Type} (k : String) : List (String × α) → List (String × α)
  | [] => []
  | (k', v') :: t => if k' = k then t else (k', v') :: eraseA k t

/-- `Map.has`. -/
def containsKey {α : Type} (k : String) (m : List (String × α)) : Bool :=
  (lookupA k m).isSome

/-- The keys of the map, in order. -/
def keysOf {α : Type} (m : List (String × α)) : List String :=
  m.map Prod.fst

/-- A well-formed `Map` value: every key bound at most once. -/
def NodupKeys {α : Type} (m : List (String × α)) : Prop :=
  (keysOf m).Nodup

/-- Delete each key of `ks` in turn (the `for ... delete` loop). -/
def removeAll {α : Type} (ks : List String) (m : List (String × α)) :
    List (String × α) :=
  ks.foldl (fun acc k => eraseA k acc) m

section AssocLemmas

variable {α : Type}

theorem lookupA_setA_self (k : String) (v : α) (m : List (String × α)) :
    lookupA k (setA k v m) = some v := by
  induction m with
  | nil => simp [setA, lookupA]
  | cons p t ih =>
    by_cases h : p.1 = k
    · simp [setA, h, lookupA]
    · simp [setA, h, lookupA, ih]

theorem lookupA_setA_ne {y k : String} (h : y ≠ k) (v : α)
    (m : List (String × α)) : lookupA y (setA k v m) = lookupA y m := by
  have hky : ¬ k = y := fun hk => h hk.symm
  induction m with
  | nil => simp [setA, lookupA, hky]
  | cons p t ih =>
    by_cases hp : p.1 = k
    · simp [setA, hp, lookupA, hky]
    · simp [setA, hp, lookupA, ih]

theorem lookupA_eraseA_ne {y k : String} (h : y ≠ k)
    (m : List (String × α)) : lookupA y (eraseA k m) = lookupA y m := by
  have hky : ¬ k = y := fun hk => h hk.symm
  induction m with
  | nil => simp [eraseA]
  | cons p t ih =>
    by_cases hp : p.1 = k
    · simp [eraseA, hp, lookupA, hky]
    · simp [eraseA, hp, lookupA, ih]

theorem mem_eraseA {p : String × α} {k : String} {m : List (String × α)}
    (h : p ∈ eraseA k m) : p ∈ m := by
  induction m with
  | nil => simp [eraseA] at h
  | cons q t ih =>
    by_cases hq : q.1 = k
    · simp only [eraseA, hq, if_pos] at h
      exact List.mem_cons_of_mem _ h
    · simp only [eraseA, hq, if_neg, List.mem_cons, not_false_iff] at h
      rcases h with h | h
      · exact h ▸ List.mem_cons_self _ _
      · exact List.mem_cons_of_mem _ (ih h)

theorem mem_setA {p : String × α} {k : String} {v : α}
    {m : List (String × α)} (h : p ∈ setA k v m) : p = (k, v) ∨ p ∈ m := by
  induction m with
  | nil => simpa [setA] using h
  | cons q t ih =>
    by_cases hq : q.1 = k
    · simp only [setA, hq, if_pos, List.mem_cons] at h
      rcases h with h | h
      · exact Or.inl h
      · exact Or.inr (List.mem_cons_of_mem _ h)
    · simp only [setA, hq, if_neg, List.mem_cons, not_false_iff] at h
      rcases h with h | h
      · exact Or.inr (h ▸ List.mem_cons_self _ _)
      · rcases ih h with h' | h'
        · exact Or.inl h'
        · exact Or.inr (List.mem_cons_of_mem _ h')

theorem lookupA_mem {k : String} {v : α} {m : List (String × α)}
    (h : lookupA k m = some v) : (k, v) ∈ m := by
  induction m with
  | nil => simp [lookupA] at h
  | cons q t ih =>
    by_cases hq : q.1 = k
    · simp only [lookupA, hq, if_pos, Option.some_inj] at h
      have hqe : q = (k, v) := by
        cases q with
        | mk a b => simp only [Prod.mk.injEq]; exact ⟨hq, h⟩
      exact hqe ▸ List.mem_cons_self _ _
    · simp only [lookupA, hq, if_neg, not_false_iff] at h
      exact List.mem_cons_of_mem _ (ih h)

theorem mem_keysOf {y : String} {m : List (String × α)} :
    y ∈ keysOf m ↔ ∃ v, (y, v) ∈ m := by
  constructor
  · intro h
    simp only [keysOf, List.mem_map] at h
    rcases h with ⟨p, hp, hpy⟩
    refine ⟨p.2, ?_⟩
    have hpe : (p.1, p.2) = p := Prod.mk.eta
    rw [← hpy, hpe]
    exact hp
  · rintro ⟨v, hv⟩
    simp only [keysOf, List.mem_map]
    exact ⟨(y, v), hv, rfl⟩

theorem mem_keys_setA {y k : String} {v : α} {m : List (String × α)}
    (h : y ∈ keysOf (setA k v m)) : y = k ∨ y ∈ keysOf m := by
  rcases mem_keysOf.mp h with ⟨w, hw⟩
  rcases mem_setA hw with h' | h'
  · left; exact congrArg Prod.fst h'
  · right; exact mem_keysOf.mpr ⟨w, h'⟩

theorem nodup_setA {k : String} {v : α} {m : List (String × α)}
    (h : NodupKeys m) : NodupKeys (setA k v m) := by
  induction m with
  | nil => simp [setA, NodupKeys, keysOf]
  | cons p t ih =>
    have h2 : (p.1 :: keysOf t).Nodup := h
    rcases List.nodup_cons.mp h2 with ⟨hnm, hnt⟩
    by_cases hp : p.1 = k
    · have hgoal : (k :: keysOf t).Nodup :=
        List.nodup_cons.mpr ⟨hp ▸ hnm, hnt⟩
      simpa [NodupKeys, setA, hp, keysOf] using hgoal
    · have hnot : p.1 ∉ keysOf (setA k v t) := by
        intro hmem
        rcases mem_keys_setA hmem with h' | h'
        · exact hp h'
        · exact hnm h'
      have hgoal : (p.1 :: keysOf (setA k v t)).Nodup :=
        List.nodup_cons.mpr ⟨hnot, ih hnt⟩
      simpa [NodupKeys, setA, hp, keysOf] using hgoal

theorem keysOf_eraseA_sublist (k : String) (m : List (String × α)) :
    (keysOf (eraseA k m)).Sublist (keysOf m) := by
  induction m with
  | nil => simp [eraseA]
  | cons p t ih =>
    by_cases hp : p.1 = k
    · have : keysOf (eraseA k (p :: t)) = keysOf t := by simp [eraseA, hp]
      rw [this]
      exact List.sublist_cons_self _ _
    · have : keysOf (eraseA k (p :: t)) = p.1 :: keysOf (eraseA k t) := by
        simp [eraseA, hp, keysOf]
      rw [this]
      exact List.Sublist.cons₂ _ ih

theorem nodup_eraseA {k : String} {m : List (String × α)}
    (h : NodupKeys m) : NodupKeys (eraseA k m) :=
  List.Nodup.sublist (keysOf_eraseA_sublist k m) h

theorem lookupA_eq_none_of_not_mem_keys {k : String} {m : List (String × α)}
    (h : k ∉ keysOf m) : lookupA k m = none := by
  induction m with
  | nil => rfl
  | cons p t ih =>
    have h2 : k ∉ p.1 :: keysOf t := h
    by_cases hp : p.1 = k
    · have : k ∈ p.1 :: keysOf t := by
        rw [hp]; exact List.mem_cons_self _ _
      exact absurd this h2
    · have h3 : k ∉ keysOf t := fun hm => h2 (List.mem_cons_of_mem _ hm)
      simp [lookupA, hp, ih h3]

theorem lookupA_eraseA_self {k : String} {m : List (String × α)}
    (h : NodupKeys m) : lookupA k (eraseA k m) = none := by
  induction m with
  | nil => rfl
  | cons p t ih =>
    have h2 : (p.1 :: keysOf t).Nodup := h
    rcases List.nodup_cons.mp h2 with ⟨hnm, hnt⟩
    by_cases hp : p.1 = k
    · have : eraseA k (p :: t) = t := by simp [eraseA, hp]
      rw [this]
      exact lookupA_eq_none_of_not_mem_keys (hp ▸ hnm)
    · have : eraseA k (p :: t) = p :: eraseA k t := by simp [eraseA, hp]
      rw [this]
      simp [lookupA, hp, ih hnt]

theorem lookupA_none_eraseA {y k : String} {m : List (String × α)}
    (h : lookupA y m = none) : lookupA y (eraseA k m) = none := by
  induction m with
  | nil => rfl
  | cons p t ih =>
    by_cases hp : p.1 = k
    · have he : eraseA k (p :: t) = t := by simp [eraseA, hp]
      rw [he]
      by_cases hy : p.1 = y
      · simp [lookupA, hy] at h
      · simpa [lookupA, hy] using h
    · have he : eraseA k (p :: t) = p :: eraseA k t := by simp [eraseA, hp]
      rw [he]
      by_cases hy : p.1 = y
      · simp [lookupA, hy] at h
      · simp [lookupA, hy] at h ⊢
        exact ih h

theorem length_eraseA {k : String} {m : List (String × α)}
    (h : containsKey k m = true) : (eraseA k m).length + 1 = m.length := by
  induction m with
  | nil => simp [containsKey, lookupA] at h
  | cons p t ih =>
    by_cases hp : p.1 = k
    · simp [eraseA, hp]
    · simp only [containsKey, lookupA, hp, if_neg, not_false_iff] at h
      have := ih (by simpa [containsKey] using h)
      simp [eraseA, hp, List.length_cons]
      omega

theorem removeAll_nil (m : List (String × α)) : removeAll [] m = m := rfl

theorem removeAll_cons (k : String) (ks : List String)
    (m : List (String × α)) :
    removeAll (k :: ks) m = removeAll ks (eraseA k m) := rfl

theorem lookupA_removeAll_notMem {y : String} {ks : List String}
    (h : y ∉ ks) (m : List (String × α)) :
    lookupA y (removeAll ks m) = lookupA y m := by
  induction ks generalizing m with
  | nil => simp [removeAll_nil]
  | cons k ks ih =>
    simp only [List.mem_cons, not_or] at h
    rw [removeAll_cons, ih h.2, lookupA_eraseA_ne h.1]

theorem lookupA_removeAll_none {y : String} {ks : List String}
    {m : List (String × α)} (h : lookupA y m = none) :
    lookupA y (removeAll ks m) = none := by
  induction ks generalizing m with
  | nil => simpa [removeAll_nil] using h
  | cons k ks ih =>
    rw [removeAll_cons]
    exact ih (lookupA_none_eraseA h)

theorem nodup_removeAll {ks : List String} {m : List (String × α)}
    (h : NodupKeys m) : NodupKeys (removeAll ks m) := by
  induction ks generalizing m with
  | nil => simpa [removeAll_nil] using h
  | cons k ks ih =>
    rw [removeAll_cons]
    exact ih (nodup_eraseA h)

theorem lookupA_removeAll_mem {y : String} {ks : List String}
    {m : List (String × α)} (h : NodupKeys m) (hy : y ∈ ks) :
    lookupA y (removeAll ks m) = none := by
  induction ks generalizing m with
  | nil => simp at hy
  | cons k ks ih =>
    rw [removeAll_cons]
    by_cases hk : y = k
    · subst hk
      exact lookupA_removeAll_none (lookupA_eraseA_self h)
    · rcases List.mem_cons.mp hy with hy' | hy'
      · exact absurd hy' hk
      · exact ih (nodup_eraseA h) hy'

theorem containsKey_setA_ne {y k : String} (h : y ≠ k) (v : α)
    (m : List (String × α)) : containsKey y (setA k v m) = containsKey y m := by
  simp [containsKey, lookupA_setA_ne h]

theorem containsKey_eraseA_false {y k : String} {m : List (String × α)}
    (h : containsKey y m = false) : containsKey y (eraseA k m) = false := by
  cases hl : lookupA y m with
  | some v => simp [containsKey, hl] at h
  | none => simp [containsKey, lookupA_none_eraseA hl]

theorem containsKey_true_iff {k : String} {m : List (String × α)} :
    containsKey k m = true ↔ ∃ v, lookupA k m = some v := by
  cases hl : lookupA k m with
  | some v => simp [containsKey, hl]
  | none => simp [containsKey, hl]

end AssocLemmas

/-! ## The session registry (`sessions.js`) -/

/-- `FEEDBACK_LEVELS = ["gotit", "neutral", "confused", "lost"]`. -/
def FEEDBACK_LEVELS : List String := ["gotit", "neutral", "confused", "lost"]

/-- One session record of the `sessions` map. -/
structure Session where
  teacherSocketId : String
  clients : List (String × String)
  createdAt : Int
deriving DecidableEq

/-- One reverse-index record of the `socketToSession` map. -/
structure SockInfo where
  code : String
  role : String
deriving DecidableEq

/-- The registry's two module-level maps. -/
structure RegistryState where
  sessions : List (String × Session)
  socketToSession : List (String × SockInfo)
deriving DecidableEq

/-- The two empty maps at module load. -/
def initialRegistry : RegistryState := ⟨[], []⟩

/-- The 32-symbol code alphabet
`"ABCDEFGHJKLMNPQRSTUVWXYZ23456789"` (ambiguous 0/O and 1/I omitted). -/
def codeAlphabet : List Char :=
  ['A', 'B', 'C', 'D', 'E', 'F', 'G', 'H', 'J', 'K', 'L', 'M', 'N', 'P',
   'Q', 'R', 'S', 'T', 'U', 'V', 'W', 'X', 'Y', 'Z', '2', '3', '4', '5',
   '6', '7', '8', '9']

/-- One iteration of the code-building `for` loop: six values of
`Math.floor(Math.random() * chars.length)`, each in `[0, 32)`. -/
structure Draw where
  r1 : Fin 32
  r2 : Fin 32
  r3 : Fin 32
  r4 : Fin 32
  r5 : Fin 32
  r6 : Fin 32

/-- `chars[i]`. -/
def alphaChar (i : Fin 32) : Char :=
  codeAlphabet.get ⟨i.val, i.isLt⟩

/-- The six-character string built by one loop iteration. -/
def mkCode (d : Draw) : String :=
  ⟨[alphaChar d.r1, alphaChar d.r2, alphaChar d.r3, alphaChar d.r4,
    alphaChar d.r5, alphaChar d.r6]⟩

/-- `generateCode`: the rejection-sampling `do/while` loop.  The random
source is a stream of draws; the loop keeps drawing while the candidate
collides with an existing code (`sessions.has(code)`).  `none` models
exhausting the supplied random stream. -/
def generateCode (rng : List Draw) (sessions : List (String × Session)) :
    Option String :=
  match rng with
  | [] => none
  | d :: rest =>
      let code := mkCode d
      if containsKey code sessions then generateCode rest sessions
      else some code

/-- `createSession(teacherSocketId)`: generate a fresh code, store the
new session, register the teacher in the reverse index and return the
code.  `now` stands for `Date.now()`. -/
def createSession (rng : List Draw) (teacherSocketId : String) (now : Int)
    (st : RegistryState) : Option (String × RegistryState) :=
  match generateCode rng st.sessions with
  | none => none
  | some code =>
      some (code,
        { sessions := setA code ⟨teacherSocketId, [], now⟩ st.sessions,
          socketToSession :=
            setA teacherSocketId ⟨code, "teacher"⟩ st.socketToSession })

/-- `sessionExists(code)`. -/
def sessionExists (code : String) (st : RegistryState) : Bool :=
  containsKey code st.sessions

/-- `addStudent(code, socketId)`: `false` if the session is missing,
else insert the student at level `"neutral"` and record the reverse
entry. -/
def addStudent (code socketId : String) (st : RegistryState) :
    Bool × RegistryState :=
  match lookupA code st.sessions with
  | none => (false, st)
  | some session =>
      (true,
        { sessions :=
            setA code
              { session with clients := setA socketId "neutral" session.clients }
              st.sessions,
          socketToSession :=
            setA socketId ⟨code, "student"⟩ st.socketToSession })

/-- `updateFeedback(code, socketId, level)`: reject an invalid level, a
missing session or a socket that is not a participant; else overwrite
the participant's level. -/
def updateFeedback (code socketId level : String) (st : RegistryState) :
    Bool × RegistryState :=
  if level ∈ FEEDBACK_LEVELS then
    match lookupA code st.sessions with
    | none => (false, st)
    | some session =>
        if containsKey socketId session.clients then
          (true,
            { st with sessions :=
                (setA code
                  { session with clients := setA socketId level session.clients }
                  st.sessions) })
        else (false, st)
  else (false, st)

/-- The `{ gotit, neutral, confused, lost, total }` aggregate record. -/
structure Counts where
  gotit : Nat
  neutral : Nat
  confused : Nat
  lost : Nat
  total : Nat
deriving DecidableEq

/-- `counts[level]++` for the four tracked levels. -/
def bumpCount (c : Counts) (level : String) : Counts :=
  if level = "gotit" then { c with gotit := c.gotit + 1 }
  else if level = "neutral" then { c with neutral := c.neutral + 1 }
  else if level = "confused" then { c with confused := c.confused + 1 }
  else if level = "lost" then { c with lost := c.lost + 1 }
  else c

/-- `getAggregate(code)`: one pass over the participant values, then
`counts.total = session.clients.size`. -/
def getAggregate (code : String) (st : RegistryState) : Option Counts :=
  match lookupA code st.sessions with
  | none => none
  | some session =>
      let counts :=
        session.clients.foldl (fun c p => bumpCount c p.2) ⟨0, 0, 0, 0, 0⟩
      some { counts with total := session.clients.length }

/-- `getSession(code)`. -/
def getSession (code : String) (st : RegistryState) : Option Session :=
  lookupA code st.sessions

/-- `removeSocket(socketId)`: look up and delete the reverse entry; a
student is also deleted from the session's participant map, a teacher
leaves the session untouched. -/
def removeSocket (socketId : String) (st : RegistryState) :
    Option SockInfo × RegistryState :=
  match lookupA socketId st.socketToSession with
  | none => (none, st)
  | some info =>
      let sessions' :=
        match lookupA info.code st.sessions with
        | none => st.sessions
        | some session =>
            if info.role = "student" then
              setA info.code
                { session with clients := eraseA socketId session.clients }
                st.sessions
            else st.sessions
      (some info,
        { sessions := sessions',
          socketToSession := eraseA socketId st.socketToSession })

/-- `endSession(code)`: `false` if the session is missing; else delete
the reverse entries of the teacher and of every participant, then the
session itself. -/
def endSession (code : String) (st : RegistryState) : Bool × RegistryState :=
  match lookupA code st.sessions with
  | none => (false, st)
  | some session =>
      (true,
        { sessions := eraseA code st.sessions,
          socketToSession :=
            removeAll (keysOf session.clients)
              (eraseA session.teacherSocketId st.socketToSession) })

/-! ## The event coordinator (`index.js`) -/

/-- `(code || "").toUpperCase().trim()`. -/
def normalizeCode (code : String) : String :=
  code.toUpper.trim

/-- `THROTTLE_MS = 500`. -/
def THROTTLE_MS : Int := 500

/-- Coordinator state: the `lastFeedbackTime` map next to the registry. -/
structure CoordState where
  lastFeedbackTime : List (String × Int)
  registry : RegistryState
deriving DecidableEq

/-- The three outcomes of the `joinSession` handler: the two
`joinError` emissions and the success path. -/
inductive JoinOutcome where
  | invalidCode
  | couldNotJoin
  | joined
deriving DecidableEq

/-- The `joinSession` handler: normalize, check existence (first error
path), call `addStudent` (second error path), else join the room. -/
def joinSessionHandler (socketId code : String) (st : RegistryState) :
    JoinOutcome × RegistryState :=
  let normalizedCode := normalizeCode code
  if sessionExists normalizedCode st = false then
    (JoinOutcome.invalidCode, st)
  else
    let added := addStudent normalizedCode socketId st
    if added.1 = false then (JoinOutcome.couldNotJoin, added.2)
    else (JoinOutcome.joined, added.2)

/-- The `feedback` handler: throttle first (`last` defaults to `0`),
then record `now`, normalize the code and call `updateFeedback`.  The
boolean result is `true` iff the event passed the throttle, i.e. was
allowed to reach `updateFeedback`. -/
def feedbackHandler (now : Int) (socketId code level : String)
    (st : CoordState) : Bool × CoordState :=
  let last := (lookupA socketId st.lastFeedbackTime).getD 0
  if now - last < THROTTLE_MS then (false, st)
  else
    let lft := setA socketId now st.lastFeedbackTime
    let updated := updateFeedback (normalizeCode code) socketId level st.registry
    (true, { lastFeedbackTime := lft, registry := updated.2 })

/-- One inbound `feedback` event: its arrival time and payload. -/
structure FbEvent where
  time : Int
  sid : String
  code : String
  level : String

/-- Process a list of `feedback` events in arrival order, returning the
events that passed the throttle. -/
def runAccepted (st : CoordState) : List FbEvent → List FbEvent
  | [] => []
  | e :: rest =>
      let r := feedbackHandler e.time e.sid e.code e.level st
      if r.1 then e :: runAccepted r.2 rest else runAccepted r.2 rest

/-! ## Shared concrete states for witnesses -/

/-- A fixed random draw: six zero indices, yielding the code "AAAAAA". -/
def exDraw : Draw := ⟨0, 0, 0, 0, 0, 0⟩

/-- Registry after `createSession("T")` with the draw above. -/
def exSt1 : RegistryState :=
  ⟨[("AAAAAA", ⟨"T", [], 0⟩)], [("T", ⟨"AAAAAA", "teacher"⟩)]⟩

/-- Registry after a further `addStudent("AAAAAA", "S1")`. -/
def exSt2 : RegistryState := (addStudent "AAAAAA" "S1" exSt1).2

/-- Registry after a further `addStudent("AAAAAA", "S2")`. -/
def exSt3 : RegistryState := (addStudent "AAAAAA" "S2" exSt2).2

/-! ## Code generation: claim C6 -/

theorem generateCode_spec (rng : List Draw)
    (sessions : List (String × Session)) (code : String)
    (h : generateCode rng sessions = some code) :
    code.length = 6 ∧ (∀ ch ∈ code.data, ch ∈ codeAlphabet) ∧
      containsKey code sessions = false := by
  induction rng with
  | nil => simp [generateCode] at h
  | cons d rest ih =>
    by_cases hc : containsKey (mkCode d) sessions
    · simp only [generateCode, hc, if_pos] at h
      exact ih h
    · simp only [generateCode, hc, if_neg, Option.some_inj, Bool.not_eq_true] at h
      subst h
      refine ⟨rfl, ?_, by simp [hc]⟩
      intro ch hch
      have hch' : ch ∈ [alphaChar d.r1, alphaChar d.r2, alphaChar d.r3,
          alphaChar d.r4, alphaChar d.r5, alphaChar d.r6] := hch
      simp only [List.mem_cons, List.not_mem_nil, or_false] at hch'
      rcases hch' with h | h | h | h | h | h <;>
        (subst h; exact List.get_mem _ _ _)

/-- Claim C6 (confirmed): every code returned by `createSession` is a
6-character string over the fixed 32-symbol alphabet and differs from
every code active at the time of the call. -/
theorem c6_createSession_codes (rng : List Draw) (tid : String) (now : Int)
    (st : RegistryState) (code : String) (st' : RegistryState)
    (h : createSession rng tid now st = some (code, st')) :
    code.length = 6 ∧ (∀ ch ∈ code.data, ch ∈ codeAlphabet) ∧
      containsKey code st.sessions = false := by
  unfold createSession at h
  cases hg : generateCode rng st.sessions with
  | none => rw [hg] at h; simp at h
  | some c =>
      rw [hg] at h
      simp only [Option.some_inj, Prod.mk.injEq] at h
      rw [← h.1]
      exact generateCode_spec rng st.sessions c hg

/-- Witness for C6 at a concrete draw. -/
theorem c6_witness :
    createSession [exDraw] "T" 0 initialRegistry = some ("AAAAAA", exSt1) ∧
    ("AAAAAA".length = 6 ∧ (∀ ch ∈ "AAAAAA".data, ch ∈ codeAlphabet) ∧
      containsKey "AAAAAA" initialRegistry.sessions = false) :=
  ⟨by decide,
   c6_createSession_codes [exDraw] "T" 0 initialRegistry "AAAAAA" exSt1
     (by decide)⟩

/-! ## The dead join-error branch: claim C9 -/

/-- Claim C9 (confirmed): whenever `sessionExists` has just returned
true, the immediately following `addStudent` call returns true, so the
`joinSession` handler's second join-error path is dead code. -/
theorem c9_join_dead_branch :
    (∀ (code socketId : String) (st : RegistryState),
        sessionExists code st = true → (addStudent code socketId st).1 = true) ∧
    (∀ (socketId code : String) (st : RegistryState),
        (joinSessionHandler socketId code st).1 ≠ JoinOutcome.couldNotJoin) := by
  have key : ∀ (code socketId : String) (st : RegistryState),
      sessionExists code st = true → (addStudent code socketId st).1 = true := by
    intro code sid st h
    rcases containsKey_true_iff.mp (by simpa [sessionExists] using h) with ⟨sess, hs⟩
    simp [addStudent, hs]
  refine ⟨key, ?_⟩
  intro sid code st
  unfold joinSessionHandler
  by_cases he : sessionExists (normalizeCode code) st = false
  · simp [he]
  · have ht : sessionExists (normalizeCode code) st = true := by
      cases hb : sessionExists (normalizeCode code) st
      · exact absurd hb he
      · rfl
    have := key (normalizeCode code) sid st ht
    simp [he, this]

/-- Witness for C9 at a concrete state. -/
theorem c9_witness :
    sessionExists "AAAAAA" exSt1 = true ∧
      (addStudent "AAAAAA" "S1" exSt1).1 = true :=
  ⟨by decide, c9_join_dead_branch.1 "AAAAAA" "S1" exSt1 (by decide)⟩

/-! ## updateFeedback: claim C3 -/

/-- Claim C3 (confirmed): `updateFeedback` returns false iff the level
is invalid, the session is missing, or the socket is not a participant;
a false return leaves the state (hence every aggregate) unchanged, and a
true return overwrites exactly that participant's level. -/
theorem c3_updateFeedback_spec (code socketId level : String)
    (st : RegistryState) :
    ((updateFeedback code socketId level st).1 = false ↔
      ¬ (level ∈ FEEDBACK_LEVELS ∧ ∃ sess,
          lookupA code st.sessions = some sess ∧
          containsKey socketId sess.clients = true)) ∧
    ((updateFeedback code socketId level st).1 = false →
      (updateFeedback code socketId level st).2 = st ∧
      ∀ c, getAggregate c (updateFeedback code socketId level st).2 =
        getAggregate c st) ∧
    (∀ sess, lookupA code st.sessions = some sess →
      level ∈ FEEDBACK_LEVELS → containsKey socketId sess.clients = true →
      (updateFeedback code socketId level st).1 = true ∧
      (updateFeedback code socketId level st).2.socketToSession =
        st.socketToSession ∧
      lookupA code (updateFeedback code socketId level st).2.sessions =
        some { sess with clients := setA socketId level sess.clients } ∧
      lookupA socketId (setA socketId level sess.clients) = some level ∧
      (∀ y, y ≠ socketId →
        lookupA y (setA socketId level sess.clients) = lookupA y sess.clients) ∧
      (∀ c, c ≠ code →
        lookupA c (updateFeedback code socketId level st).2.sessions =
          lookupA c st.sessions)) := by
  by_cases hl : level ∈ FEEDBACK_LEVELS
  · cases hs : lookupA code st.sessions with
    | none =>
      refine ⟨?_, ?_, ?_⟩
      · simp [updateFeedback, hl, hs]
      · intro _; simp [updateFeedback, hl, hs]
      · intro sess h; simp at h
    | some sess =>
      by_cases hm : containsKey socketId sess.clients
      · refine ⟨?_, ?_, ?_⟩
        · simp [updateFeedback, hl, hs, hm]
        · intro hf; simp [updateFeedback, hl, hs, hm] at hf
        · intro sess' hsess' _ _
          have hse : sess' = sess := by
            exact (Option.some_inj.mp hsess').symm
          subst hse
          refine ⟨by simp [updateFeedback, hl, hs, hm],
                  by simp [updateFeedback, hl, hs, hm],
                  ?_, lookupA_setA_self _ _ _,
                  fun y hy => lookupA_setA_ne hy _ _, ?_⟩
          · simp only [updateFeedback, hl, if_pos, hs, hm]
            exact lookupA_setA_self _ _ _
          · intro c hc
            simp only [updateFeedback, hl, if_pos, hs, hm]
            exact lookupA_setA_ne hc _ _
      · refine ⟨?_, ?_, ?_⟩
        · simp [updateFeedback, hl, hs, hm]
        · intro _; simp [updateFeedback, hl, hs, hm]
        · intro sess' hsess' _ hm'
          have hse : sess' = sess := by
            exact (Option.some_inj.mp hsess').symm
          subst hse
          exact absurd hm' (by simpa using hm)
  · refine ⟨?_, ?_, ?_⟩
    · simp [updateFeedback, hl]
    · intro _; simp [updateFeedback, hl]
    · intro sess _ hl' _
      exact absurd hl' hl

/-- Witness for C3: a successful update at a concrete state. -/
theorem c3_witness :
    lookupA "AAAAAA" exSt2.sessions =
        some ⟨"T", [("S1", "neutral")], 0⟩ ∧
    "lost" ∈ FEEDBACK_LEVELS ∧
    containsKey "S1" (Session.clients ⟨"T", [("S1", "neutral")], 0⟩) = true ∧
    (updateFeedback "AAAAAA" "S1" "lost" exSt2).1 = true :=
  ⟨by decide, by decide, by decide,
   ((c3_updateFeedback_spec "AAAAAA" "S1" "lost" exSt2).2.2
     ⟨"T", [("S1", "neutral")], 0⟩ (by decide) (by decide) (by decide)).1⟩

/-! ## removeSocket: claim C7 -/

/-- Claim C7 (confirmed): `removeSocket` returns null for an unknown
socket; otherwise it deletes the reverse entry and returns it, deletes a
student from the session's participant map (dropping the aggregate total
by one), and leaves the session untouched for a teacher. -/
theorem c7_removeSocket_spec (socketId : String) (st : RegistryState) :
    (lookupA socketId st.socketToSession = none →
      removeSocket socketId st = (none, st)) ∧
    (∀ info, lookupA socketId st.socketToSession = some info →
      (removeSocket socketId st).1 = some info ∧
      (removeSocket socketId st).2.socketToSession =
        eraseA socketId st.socketToSession ∧
      (info.role = "teacher" →
        (removeSocket socketId st).2.sessions = st.sessions) ∧
      (∀ sess, lookupA info.code st.sessions = some sess →
        info.role = "student" →
        (removeSocket socketId st).2.sessions =
          setA info.code { sess with clients := eraseA socketId sess.clients }
            st.sessions ∧
        (containsKey socketId sess.clients = true →
          ∀ a, getAggregate info.code st = some a →
            ∃ a', getAggregate info.code (removeSocket socketId st).2 = some a' ∧
              a'.total + 1 = a.total))) := by
  constructor
  · intro h
    simp [removeSocket, h]
  · intro info hinfo
    refine ⟨by simp [removeSocket, hinfo], ?_, ?_, ?_⟩
    · cases hs : lookupA info.code st.sessions with
      | none => simp [removeSocket, hinfo, hs]
      | some sess =>
        by_cases hr : info.role = "student"
        · simp [removeSocket, hinfo, hs, hr]
        · simp [removeSocket, hinfo, hs, hr]
    · intro hteacher
      have hr : ¬ info.role = "student" := by
        rw [hteacher]; decide
      cases hs : lookupA info.code st.sessions with
      | none => simp [removeSocket, hinfo, hs]
      | some sess => simp [removeSocket, hinfo, hs, hr]
    · intro sess hs hr
      have hsessions : (removeSocket socketId st).2.sessions =
          setA info.code { sess with clients := eraseA socketId sess.clients }
            st.sessions := by
        simp [removeSocket, hinfo, hs, hr]
      refine ⟨hsessions, ?_⟩
      intro hm a ha
      have hagg : getAggregate info.code st = some
          { (sess.clients.foldl (fun c p => bumpCount c p.2) ⟨0, 0, 0, 0, 0⟩) with
            total := sess.clients.length } := by
        simp [getAggregate, hs]
      have hA : a.total = sess.clients.length := by
        rw [hagg] at ha
        have h2 := Option.some_inj.mp ha
        rw [← h2]
      have hlook : lookupA info.code (removeSocket socketId st).2.sessions =
          some { sess with clients := eraseA socketId sess.clients } := by
        rw [hsessions]; exact lookupA_setA_self _ _ _
      refine ⟨{ ((eraseA socketId sess.clients).foldl
                  (fun c p => bumpCount c p.2) ⟨0, 0, 0, 0, 0⟩) with
                total := (eraseA socketId sess.clients).length }, ?_, ?_⟩
      · simp [getAggregate, hlook]
      · show (eraseA socketId sess.clients).length + 1 = a.total
        rw [hA]
        exact length_eraseA hm

/-- Witness for C7: removing a student at a concrete state. -/
theorem c7_witness :
    lookupA "S1" exSt2.socketToSession = some ⟨"AAAAAA", "student"⟩ ∧
    (removeSocket "S1" exSt2).1 = some (⟨"AAAAAA", "student"⟩ : SockInfo) :=
  ⟨by decide,
   ((c7_removeSocket_spec "S1" exSt2).2 ⟨"AAAAAA", "student"⟩ (by decide)).1⟩

/-! ## getAggregate: claim C4 -/

/-- The number of participants currently at a given level. -/
def countLevel (level : String) (clients : List (String × String)) : Nat :=
  (clients.filter (fun p => p.2 = level)).length

theorem countLevel_cons (level : String) (q : String × String)
    (t : List (String × String)) :
    countLevel level (q :: t) =
      (if q.2 = level then 1 else 0) + countLevel level t := by
  unfold countLevel
  by_cases h : q.2 = level
  · simp [List.filter_cons, h, Nat.add_comm]
  · simp [List.filter_cons, h]

theorem bumpCount_eq (c : Counts) (s : String) :
    bumpCount c s =
      ⟨c.gotit + (if s = "gotit" then 1 else 0),
       c.neutral + (if s = "neutral" then 1 else 0),
       c.confused + (if s = "confused" then 1 else 0),
       c.lost + (if s = "lost" then 1 else 0), c.total⟩ := by
  unfold bumpCount
  by_cases h1 : s = "gotit"
  · subst h1; simp
  · by_cases h2 : s = "neutral"
    · subst h2; simp
    · by_cases h3 : s = "confused"
      · subst h3; simp
      · by_cases h4 : s = "lost"
        · subst h4; simp
        · simp [h1, h2, h3, h4]

theorem foldl_bump_eq (l : List (String × String)) (c : Counts) :
    l.foldl (fun c p => bumpCount c p.2) c =
      ⟨c.gotit + countLevel "gotit" l, c.neutral + countLevel "neutral" l,
       c.confused + countLevel "confused" l, c.lost + countLevel "lost" l,
       c.total⟩ := by
  induction l generalizing c with
  | nil => simp [countLevel]
  | cons q t ih =>
    rw [List.foldl_cons, bumpCount_eq, ih]
    simp only [countLevel_cons, Counts.mk.injEq]
    refine ⟨?_, ?_, ?_, ?_, trivial⟩ <;> (split_ifs <;> omega)

/-- Claim C4 (confirmed): `getAggregate` is null exactly for a missing
session; otherwise each per-level count is the number of participants at
that level and `total` is the number of participant entries (the teacher
is not among them); the spec's two-student example evaluates as stated. -/
theorem c4_getAggregate_spec :
    (∀ (code : String) (st : RegistryState),
      (getAggregate code st = none ↔ lookupA code st.sessions = none) ∧
      (∀ sess, lookupA code st.sessions = some sess →
        getAggregate code st = some
          ⟨countLevel "gotit" sess.clients, countLevel "neutral" sess.clients,
           countLevel "confused" sess.clients, countLevel "lost" sess.clients,
           sess.clients.length⟩)) ∧
    getAggregate "AAAAAA" exSt3 = some ⟨0, 2, 0, 0, 2⟩ := by
  constructor
  · intro code st
    constructor
    · cases hs : lookupA code st.sessions with
      | none => simp [getAggregate, hs]
      | some sess => simp [getAggregate, hs]
    · intro sess hs
      simp only [getAggregate, hs]
      rw [foldl_bump_eq]
      simp
  · decide

/-- Witness for C4 at a concrete two-student state. -/
theorem c4_witness :
    lookupA "AAAAAA" exSt3.sessions =
        some ⟨"T", [("S1", "neutral"), ("S2", "neutral")], 0⟩ ∧
    getAggregate "AAAAAA" exSt3 = some
      ⟨countLevel "gotit" [("S1", "neutral"), ("S2", "neutral")],
       countLevel "neutral" [("S1", "neutral"), ("S2", "neutral")],
       countLevel "confused" [("S1", "neutral"), ("S2", "neutral")],
       countLevel "lost" [("S1", "neutral"), ("S2", "neutral")],
       (([("S1", "neutral"), ("S2", "neutral")] : List (String × String))).length⟩ :=
  ⟨by decide,
   (c4_getAggregate_spec.1 "AAAAAA" exSt3).2
     ⟨"T", [("S1", "neutral"), ("S2", "neutral")], 0⟩ (by decide)⟩

/-! ## endSession: claim C8 -/

theorem containsKey_of_mem {α : Type} {p : String × α}
    {m : List (String × α)} (h : p ∈ m) : containsKey p.1 m = true := by
  induction m with
  | nil => cases h
  | cons q t ih =>
    rcases List.mem_cons.mp h with h' | h'
    · subst h'; simp [containsKey, lookupA]
    · by_cases hq : q.1 = p.1
      · simp [containsKey, lookupA, hq]
      · simpa [containsKey, lookupA, hq] using ih h'

/-- Claim C8 (confirmed): `endSession` is a no-op returning false on a
missing session; otherwise it returns true, deletes the session, the
owner's reverse entry and every participant's reverse entry (touching no
other binding), and an immediately repeated call returns false. -/
theorem c8_endSession_spec (code : String) (st : RegistryState) :
    (lookupA code st.sessions = none → endSession code st = (false, st)) ∧
    (∀ sess, lookupA code st.sessions = some sess →
      (endSession code st).1 = true ∧
      (NodupKeys st.sessions →
        lookupA code (endSession code st).2.sessions = none ∧
        (endSession code (endSession code st).2).1 = false) ∧
      (∀ c, c ≠ code →
        lookupA c (endSession code st).2.sessions = lookupA c st.sessions) ∧
      (NodupKeys st.socketToSession →
        lookupA sess.teacherSocketId (endSession code st).2.socketToSession =
          none ∧
        (∀ y, containsKey y sess.clients = true →
          lookupA y (endSession code st).2.socketToSession = none)) ∧
      (∀ y, y ≠ sess.teacherSocketId → containsKey y sess.clients = false →
        lookupA y (endSession code st).2.socketToSession =
          lookupA y st.socketToSession)) := by
  constructor
  · intro h
    simp [endSession, h]
  · intro sess hs
    have hsessions : (endSession code st).2.sessions = eraseA code st.sessions := by
      simp [endSession, hs]
    have hsock : (endSession code st).2.socketToSession =
        removeAll (keysOf sess.clients)
          (eraseA sess.teacherSocketId st.socketToSession) := by
      simp [endSession, hs]
    refine ⟨by simp [endSession, hs], ?_, ?_, ?_, ?_⟩
    · intro hnd
      have hnone : lookupA code (endSession code st).2.sessions = none := by
        rw [hsessions]
        exact lookupA_eraseA_self hnd
      have hfalse : ∀ (st' : RegistryState), lookupA code st'.sessions = none →
          endSession code st' = (false, st') := by
        intro st' h'
        simp [endSession, h']
      exact ⟨hnone, by rw [hfalse _ hnone]⟩
    · intro c hc
      rw [hsessions]
      exact lookupA_eraseA_ne hc _
    · intro hnd
      constructor
      · rw [hsock]
        exact lookupA_removeAll_none (lookupA_eraseA_self hnd)
      · intro y hy
        rcases containsKey_true_iff.mp hy with ⟨v, hv⟩
        have hmem : y ∈ keysOf sess.clients :=
          mem_keysOf.mpr ⟨v, lookupA_mem hv⟩
        rw [hsock]
        exact lookupA_removeAll_mem (nodup_eraseA hnd) hmem
    · intro y hyT hyC
      have hymem : y ∉ keysOf sess.clients := by
        intro hm
        rcases mem_keysOf.mp hm with ⟨v, hv⟩
        have := containsKey_of_mem hv
        simp [this] at hyC
      rw [hsock, lookupA_removeAll_notMem hymem, lookupA_eraseA_ne hyT]

/-- Witness for C8 at a concrete one-student session. -/
theorem c8_witness :
    lookupA "AAAAAA" exSt2.sessions = some ⟨"T", [("S1", "neutral")], 0⟩ ∧
    NodupKeys exSt2.sessions ∧ NodupKeys exSt2.socketToSession ∧
    (endSession "AAAAAA" exSt2).1 = true ∧
    lookupA "AAAAAA" (endSession "AAAAAA" exSt2).2.sessions = none ∧
    (endSession "AAAAAA" (endSession "AAAAAA" exSt2).2).1 = false ∧
    lookupA "T" (endSession "AAAAAA" exSt2).2.socketToSession = none := by
  have h := (c8_endSession_spec "AAAAAA" exSt2).2
    ⟨"T", [("S1", "neutral")], 0⟩ (by decide)
  have hnd1 : NodupKeys exSt2.sessions := by
    simp [NodupKeys, keysOf, exSt2, exSt1, addStudent, setA, lookupA]
  have hnd2 : NodupKeys exSt2.socketToSession := by
    simp [NodupKeys, keysOf, exSt2, exSt1, addStudent, setA, lookupA]
  exact ⟨by decide, hnd1, hnd2, h.1, (h.2.1 hnd1).1, (h.2.1 hnd1).2,
    (h.2.2.2.1 hnd2).1⟩

/-! ## Reachable registry states -/

theorem containsKey_eraseA_ne {α : Type} {y k : String} (h : y ≠ k)
    (m : List (String × α)) : containsKey y (eraseA k m) = containsKey y m := by
  simp [containsKey, lookupA_eraseA_ne h]

/-- States reachable from the empty registry through the registry's
five mutating operations. -/
inductive Reachable : RegistryState → Prop where
  | init : Reachable initialRegistry
  | create (rng : List Draw) (tid : String) (now : Int) (st : RegistryState)
      (code : String) (st' : RegistryState) (h : Reachable st)
      (hc : createSession rng tid now st = some (code, st')) : Reachable st'
  | addStudentStep (code sid : String) (st : RegistryState)
      (h : Reachable st) : Reachable (addStudent code sid st).2
  | updateFeedbackStep (code sid lvl : String) (st : RegistryState)
      (h : Reachable st) : Reachable (updateFeedback code sid lvl st).2
  | removeSocketStep (sid : String) (st : RegistryState)
      (h : Reachable st) : Reachable (removeSocket sid st).2
  | endSessionStep (code : String) (st : RegistryState)
      (h : Reachable st) : Reachable (endSession code st).2

/-- The registry invariant: both maps have unique keys, every reverse
entry carries a valid role and points to a live session that agrees
with it. -/
def RegInv (st : RegistryState) : Prop :=
  NodupKeys st.sessions ∧ NodupKeys st.socketToSession ∧
  ∀ sid info, lookupA sid st.socketToSession = some info →
    (info.role = "teacher" ∨ info.role = "student") ∧
    ∃ sess, lookupA info.code st.sessions = some sess ∧
      (info.role = "teacher" → sess.teacherSocketId = sid) ∧
      (info.role = "student" → containsKey sid sess.clients = true)

theorem regInv_init : RegInv initialRegistry := by
  refine ⟨List.nodup_nil, List.nodup_nil, ?_⟩
  intro sid info h
  cases h

theorem regInv_create {rng : List Draw} {tid : String} {now : Int}
    {st : RegistryState} {code : String} {st' : RegistryState}
    (hInv : RegInv st) (hc : createSession rng tid now st = some (code, st')) :
    RegInv st' := by
  obtain ⟨hnd1, hnd2, hent⟩ := hInv
  unfold createSession at hc
  cases hg : generateCode rng st.sessions with
  | none => rw [hg] at hc; simp at hc
  | some c =>
    rw [hg] at hc
    simp only [Option.some_inj, Prod.mk.injEq] at hc
    obtain ⟨hcode, hst⟩ := hc
    have hfresh : containsKey c st.sessions = false :=
      (generateCode_spec rng st.sessions c hg).2.2
    subst hst
    subst hcode
    refine ⟨nodup_setA hnd1, nodup_setA hnd2, ?_⟩
    intro sid info hsid
    by_cases hy : sid = tid
    · subst hy
      rw [lookupA_setA_self] at hsid
      have hinfo : info = ⟨c, "teacher"⟩ := (Option.some_inj.mp hsid).symm
      subst hinfo
      refine ⟨Or.inl rfl, ⟨sid, [], now⟩, lookupA_setA_self _ _ _,
        fun _ => rfl,
        fun hcontra =>
          absurd (show ("teacher" : String) = "student" from hcontra)
            (by decide)⟩
    · have hold : lookupA sid st.socketToSession = some info := by
        rwa [lookupA_setA_ne hy] at hsid
      obtain ⟨hrole, sess, hsess, hT, hS⟩ := hent sid info hold
      have hne : info.code ≠ c := by
        intro hEq
        rw [hEq] at hsess
        have hck : containsKey c st.sessions = true := by
          simp [containsKey, hsess]
        rw [hck] at hfresh
        cases hfresh
      refine ⟨hrole, sess, ?_, hT, hS⟩
      rw [lookupA_setA_ne hne]
      exact hsess

theorem regInv_addStudent {code sid : String} {st : RegistryState}
    (hInv : RegInv st) : RegInv (addStudent code sid st).2 := by
  obtain ⟨hnd1, hnd2, hent⟩ := hInv
  cases hlk : lookupA code st.sessions with
  | none =>
    have h2 : (addStudent code sid st).2 = st := by simp [addStudent, hlk]
    rw [h2]
    exact ⟨hnd1, hnd2, hent⟩
  | some sess =>
    have h2 : (addStudent code sid st).2 =
        ⟨setA code { sess with clients := setA sid "neutral" sess.clients }
           st.sessions,
         setA sid ⟨code, "student"⟩ st.socketToSession⟩ := by
      simp [addStudent, hlk]
    rw [h2]
    refine ⟨nodup_setA hnd1, nodup_setA hnd2, ?_⟩
    intro y info hy
    by_cases hys : y = sid
    · subst hys
      rw [lookupA_setA_self] at hy
      have hinfo : info = ⟨code, "student"⟩ := (Option.some_inj.mp hy).symm
      subst hinfo
      refine ⟨Or.inr rfl,
        { sess with clients := setA y "neutral" sess.clients },
        lookupA_setA_self _ _ _,
        fun hcontra =>
          absurd (show ("student" : String) = "teacher" from hcontra)
            (by decide),
        fun _ => ?_⟩
      show containsKey y (setA y "neutral" sess.clients) = true
      simp [containsKey, lookupA_setA_self]
    · have hold : lookupA y st.socketToSession = some info := by
        rwa [lookupA_setA_ne hys] at hy
      obtain ⟨hrole, sess0, hsess0, hT, hS⟩ := hent y info hold
      by_cases hcode : info.code = code
      · have hs0 : sess0 = sess := by
          rw [hcode, hlk] at hsess0
          exact (Option.some_inj.mp hsess0).symm
        refine ⟨hrole,
          { sess with clients := setA sid "neutral" sess.clients }, ?_, ?_, ?_⟩
        · rw [hcode]; exact lookupA_setA_self _ _ _
        · intro hT'
          have hty := hT hT'
          rw [hs0] at hty
          exact hty
        · intro hS'
          have hcy := hS hS'
          rw [hs0] at hcy
          show containsKey y (setA sid "neutral" sess.clients) = true
          rw [containsKey_setA_ne hys]
          exact hcy
      · refine ⟨hrole, sess0, ?_, hT, hS⟩
        rw [lookupA_setA_ne hcode]
        exact hsess0

theorem regInv_updateFeedback {code sid lvl : String} {st : RegistryState}
    (hInv : RegInv st) : RegInv (updateFeedback code sid lvl st).2 := by
  obtain ⟨hnd1, hnd2, hent⟩ := hInv
  by_cases hl : lvl ∈ FEEDBACK_LEVELS
  · cases hlk : lookupA code st.sessions with
    | none =>
      have h2 : (updateFeedback code sid lvl st).2 = st := by
        simp [updateFeedback, hl, hlk]
      rw [h2]
      exact ⟨hnd1, hnd2, hent⟩
    | some sess =>
      by_cases hm : containsKey sid sess.clients
      · have h2 : (updateFeedback code sid lvl st).2 =
            ⟨setA code { sess with clients := setA sid lvl sess.clients }
               st.sessions,
             st.socketToSession⟩ := by
          simp [updateFeedback, hl, hlk, hm]
        rw [h2]
        refine ⟨nodup_setA hnd1, hnd2, ?_⟩
        intro y info hy
        obtain ⟨hrole, sess0, hsess0, hT, hS⟩ := hent y info hy
        by_cases hcode : info.code = code
        · have hs0 : sess0 = sess := by
            rw [hcode, hlk] at hsess0
            exact (Option.some_inj.mp hsess0).symm
          refine ⟨hrole,
            { sess with clients := setA sid lvl sess.clients }, ?_, ?_, ?_⟩
          · rw [hcode]; exact lookupA_setA_self _ _ _
          · intro hT'
            have hty := hT hT'
            rw [hs0] at hty
            exact hty
          · intro hS'
            have hcy := hS hS'
            rw [hs0] at hcy
            show containsKey y (setA sid lvl sess.clients) = true
            by_cases hysid : y = sid
            · subst hysid
              simp [containsKey, lookupA_setA_self]
            · rw [containsKey_setA_ne hysid]
              exact hcy
        · refine ⟨hrole, sess0, ?_, hT, hS⟩
          rw [lookupA_setA_ne hcode]
          exact hsess0
      · have h2 : (updateFeedback code sid lvl st).2 = st := by
          simp [updateFeedback, hl, hlk, hm]
        rw [h2]
        exact ⟨hnd1, hnd2, hent⟩
  · have h2 : (updateFeedback code sid lvl st).2 = st := by
      simp [updateFeedback, hl]
    rw [h2]
    exact ⟨hnd1, hnd2, hent⟩

theorem regInv_removeSocket {sid : String} {st : RegistryState}
    (hInv : RegInv st) : RegInv (removeSocket sid st).2 := by
  obtain ⟨hnd1, hnd2, hent⟩ := hInv
  cases hi : lookupA sid st.socketToSession with
  | none =>
    have h2 : (removeSocket sid st).2 = st := by simp [removeSocket, hi]
    rw [h2]
    exact ⟨hnd1, hnd2, hent⟩
  | some info0 =>
    have hsurv : ∀ y info, y ≠ sid →
        lookupA y (eraseA sid st.socketToSession) = some info →
        lookupA y st.socketToSession = some info := by
      intro y info hys hy
      rwa [lookupA_eraseA_ne hys] at hy
    cases hc : lookupA info0.code st.sessions with
    | none =>
      have h2 : (removeSocket sid st).2 =
          ⟨st.sessions, eraseA sid st.socketToSession⟩ := by
        simp [removeSocket, hi, hc]
      rw [h2]
      refine ⟨hnd1, nodup_eraseA hnd2, ?_⟩
      intro y info hy
      by_cases hys : y = sid
      · subst hys
        rw [lookupA_eraseA_self hnd2] at hy
        cases hy
      · exact hent y info (hsurv y info hys hy)
    | some s1 =>
      by_cases hr : info0.role = "student"
      · have h2 : (removeSocket sid st).2 =
            ⟨setA info0.code { s1 with clients := eraseA sid s1.clients }
               st.sessions,
             eraseA sid st.socketToSession⟩ := by
          simp [removeSocket, hi, hc, hr]
        rw [h2]
        refine ⟨nodup_setA hnd1, nodup_eraseA hnd2, ?_⟩
        intro y info hy
        by_cases hys : y = sid
        · subst hys
          rw [lookupA_eraseA_self hnd2] at hy
          cases hy
        · obtain ⟨hrole, sess0, hsess0, hT, hS⟩ :=
            hent y info (hsurv y info hys hy)
          by_cases hcode : info.code = info0.code
          · have hs0 : sess0 = s1 := by
              rw [hcode, hc] at hsess0
              exact (Option.some_inj.mp hsess0).symm
            refine ⟨hrole,
              { s1 with clients := eraseA sid s1.clients }, ?_, ?_, ?_⟩
            · rw [hcode]; exact lookupA_setA_self _ _ _
            · intro hT'
              have hty := hT hT'
              rw [hs0] at hty
              exact hty
            · intro hS'
              have hcy := hS hS'
              rw [hs0] at hcy
              show containsKey y (eraseA sid s1.clients) = true
              rw [containsKey_eraseA_ne hys]
              exact hcy
          · refine ⟨hrole, sess0, ?_, hT, hS⟩
            rw [lookupA_setA_ne hcode]
            exact hsess0
      · have h2 : (removeSocket sid st).2 =
            ⟨st.sessions, eraseA sid st.socketToSession⟩ := by
          simp [removeSocket, hi, hc, hr]
        rw [h2]
        refine ⟨hnd1, nodup_eraseA hnd2, ?_⟩
        intro y info hy
        by_cases hys : y = sid
        · subst hys
          rw [lookupA_eraseA_self hnd2] at hy
          cases hy
        · exact hent y info (hsurv y info hys hy)

theorem regInv_endSession {code : String} {st : RegistryState}
    (hInv : RegInv st) : RegInv (endSession code st).2 := by
  obtain ⟨hnd1, hnd2, hent⟩ := hInv
  cases hlk : lookupA code st.sessions with
  | none =>
    have h2 : (endSession code st).2 = st := by simp [endSession, hlk]
    rw [h2]
    exact ⟨hnd1, hnd2, hent⟩
  | some sess =>
    have h2 : (endSession code st).2 =
        ⟨eraseA code st.sessions,
         removeAll (keysOf sess.clients)
           (eraseA sess.teacherSocketId st.socketToSession)⟩ := by
      simp [endSession, hlk]
    rw [h2]
    refine ⟨nodup_eraseA hnd1, nodup_removeAll (nodup_eraseA hnd2), ?_⟩
    intro y info hy
    by_cases hyT : y = sess.teacherSocketId
    · subst hyT
      rw [lookupA_removeAll_none (lookupA_eraseA_self hnd2)] at hy
      cases hy
    · by_cases hyC : y ∈ keysOf sess.clients
      · rw [lookupA_removeAll_mem (nodup_eraseA hnd2) hyC] at hy
        cases hy
      · have hold : lookupA y st.socketToSession = some info := by
          rw [lookupA_removeAll_notMem hyC, lookupA_eraseA_ne hyT] at hy
          exact hy
        obtain ⟨hrole, sess0, hsess0, hT, hS⟩ := hent y info hold
        have hcode : info.code ≠ code := by
          intro hEq
          rw [hEq, hlk] at hsess0
          have hs0 : sess0 = sess := (Option.some_inj.mp hsess0).symm
          rcases hrole with hr | hr
          · have hty := hT hr
            rw [hs0] at hty
            exact hyT hty.symm
          · have hcy := hS hr
            rw [hs0] at hcy
            rcases containsKey_true_iff.mp hcy with ⟨v, hv⟩
            exact hyC (mem_keysOf.mpr ⟨v, lookupA_mem hv⟩)
        refine ⟨hrole, sess0, ?_, hT, hS⟩
        rw [lookupA_eraseA_ne hcode]
        exact hsess0

/-- Every reachable state satisfies the registry invariant. -/
theorem regInv_reachable {st : RegistryState} (h : Reachable st) :
    RegInv st := by
  induction h with
  | init => exact regInv_init
  | create rng tid now st code st' h hc ih => exact regInv_create ih hc
  | addStudentStep code sid st h ih => exact regInv_addStudent ih
  | updateFeedbackStep code sid lvl st h ih => exact regInv_updateFeedback ih
  | removeSocketStep sid st h ih => exact regInv_removeSocket ih
  | endSessionStep code st h ih => exact regInv_endSession ih

/-! ## Claim C2 -/

theorem reachable_exSt1 : Reachable exSt1 :=
  Reachable.create [exDraw] "T" 0 initialRegistry "AAAAAA" exSt1
    Reachable.init (by decide)

theorem reachable_exSt2 : Reachable exSt2 :=
  Reachable.addStudentStep "AAAAAA" "S1" exSt1 reachable_exSt1

/-- The state reached by `createSession("T")` followed by
`removeSocket("T")`: the session survives, the reverse entry is gone. -/
def c2CexState : RegistryState := (removeSocket "T" exSt1).2

/-- Claim C2 (counterexample): after a teacher disconnect the owner of a
live session has no reverse-index entry, so "a reverse-index entry
exists iff the connection is part of some session" fails right-to-left
on a reachable state. -/
theorem c2_counterexample :
    Reachable c2CexState ∧
    lookupA "AAAAAA" c2CexState.sessions = some ⟨"T", [], 0⟩ ∧
    Session.teacherSocketId ⟨"T", [], 0⟩ = "T" ∧
    lookupA "T" c2CexState.socketToSession = none :=
  ⟨Reachable.removeSocketStep "T" exSt1 reachable_exSt1, by decide, rfl,
   by decide⟩

/-- Claim C2 (amended): on every reachable registry state each
reverse-index entry matches the forward session map — it points to a
live session whose teacher (for role teacher) or participant map (for
role student) agrees with it.  The converse direction of the claimed
"exists iff part of some session" is refuted by `c2_counterexample`. -/
theorem c2_reverse_matches_forward (st : RegistryState) (h : Reachable st)
    (sid : String) (info : SockInfo)
    (hsid : lookupA sid st.socketToSession = some info) :
    ∃ sess, lookupA info.code st.sessions = some sess ∧
      (info.role = "teacher" → sess.teacherSocketId = sid) ∧
      (info.role = "student" → containsKey sid sess.clients = true) :=
  ((regInv_reachable h).2.2 sid info hsid).2

/-- Witness for the amended C2 at a concrete reachable state. -/
theorem c2_witness :
    Reachable exSt2 ∧
    lookupA "S1" exSt2.socketToSession = some ⟨"AAAAAA", "student"⟩ ∧
    (∃ sess, lookupA (SockInfo.code ⟨"AAAAAA", "student"⟩) exSt2.sessions =
        some sess ∧
      (SockInfo.role ⟨"AAAAAA", "student"⟩ = "teacher" →
        sess.teacherSocketId = "S1") ∧
      (SockInfo.role ⟨"AAAAAA", "student"⟩ = "student" →
        containsKey "S1" sess.clients = true)) :=
  ⟨reachable_exSt2, by decide,
   c2_reverse_matches_forward exSt2 reachable_exSt2 "S1"
     ⟨"AAAAAA", "student"⟩ (by decide)⟩

/-! ## Claim C1 -/

/-- The state reached by `createSession("T")` followed by
`addStudent("AAAAAA", "T")`: the owner joins its own session. -/
def c1CexState : RegistryState := (addStudent "AAAAAA" "T" exSt1).2

/-- Claim C1 (counterexample): `addStudent` does not guard against the
owner's own connection id, so a reachable state has the owner of a
session as a key of that session's participant map. -/
theorem c1_counterexample :
    Reachable c1CexState ∧
    lookupA "AAAAAA" c1CexState.sessions =
      some ⟨"T", [("T", "neutral")], 0⟩ ∧
    containsKey (Session.teacherSocketId ⟨"T", [("T", "neutral")], 0⟩)
      (Session.clients ⟨"T", [("T", "neutral")], 0⟩) = true :=
  ⟨Reachable.addStudentStep "AAAAAA" "T" exSt1 reachable_exSt1, by decide,
   by decide⟩

/-- States reachable through the registry operations when `addStudent`
is never invoked with the owner's own connection id of the session being
joined (the hypothesis the counterexample forces onto claim C1). -/
inductive ReachableOwn : RegistryState → Prop where
  | init : ReachableOwn initialRegistry
  | create (rng : List Draw) (tid : String) (now : Int) (st : RegistryState)
      (code : String) (st' : RegistryState) (h : ReachableOwn st)
      (hc : createSession rng tid now st = some (code, st')) : ReachableOwn st'
  | addStudentStep (code sid : String) (st : RegistryState)
      (h : ReachableOwn st)
      (hown : ∀ sess, lookupA code st.sessions = some sess →
        sess.teacherSocketId ≠ sid) :
      ReachableOwn (addStudent code sid st).2
  | updateFeedbackStep (code sid lvl : String) (st : RegistryState)
      (h : ReachableOwn st) : ReachableOwn (updateFeedback code sid lvl st).2
  | removeSocketStep (sid : String) (st : RegistryState)
      (h : ReachableOwn st) : ReachableOwn (removeSocket sid st).2
  | endSessionStep (code : String) (st : RegistryState)
      (h : ReachableOwn st) : ReachableOwn (endSession code st).2

theorem ownInv_reachable {st : RegistryState} (h : ReachableOwn st) :
    ∀ p ∈ st.sessions, containsKey p.2.teacherSocketId p.2.clients = false := by
  induction h with
  | init => intro p hp; cases hp
  | create rng tid now st code st' h hc ih =>
    unfold createSession at hc
    cases hg : generateCode rng st.sessions with
    | none => rw [hg] at hc; simp at hc
    | some c =>
      rw [hg] at hc
      simp only [Option.some_inj, Prod.mk.injEq] at hc
      obtain ⟨hcode, hst⟩ := hc
      subst hst
      intro p hp
      rcases mem_setA hp with hp' | hp'
      · subst hp'
        show containsKey tid ([] : List (String × String)) = false
        rfl
      · exact ih p hp'
  | addStudentStep code sid st h hown ih =>
    cases hlk : lookupA code st.sessions with
    | none =>
      have h2 : (addStudent code sid st).2 = st := by simp [addStudent, hlk]
      rw [h2]
      exact ih
    | some sess =>
      have h2 : (addStudent code sid st).2 =
          ⟨setA code { sess with clients := setA sid "neutral" sess.clients }
             st.sessions,
           setA sid ⟨code, "student"⟩ st.socketToSession⟩ := by
        simp [addStudent, hlk]
      rw [h2]
      intro p hp
      rcases mem_setA hp with hp' | hp'
      · subst hp'
        show containsKey sess.teacherSocketId
          (setA sid "neutral" sess.clients) = false
        rw [containsKey_setA_ne (hown sess hlk)]
        exact ih (code, sess) (lookupA_mem hlk)
      · exact ih p hp'
  | updateFeedbackStep code sid lvl st h ih =>
    by_cases hl : lvl ∈ FEEDBACK_LEVELS
    · cases hlk : lookupA code st.sessions with
      | none =>
        have h2 : (updateFeedback code sid lvl st).2 = st := by
          simp [updateFeedback, hl, hlk]
        rw [h2]
        exact ih
      | some sess =>
        by_cases hm : containsKey sid sess.clients
        · have h2 : (updateFeedback code sid lvl st).2 =
              ⟨setA code { sess with clients := setA sid lvl sess.clients }
                 st.sessions,
               st.socketToSession⟩ := by
            simp [updateFeedback, hl, hlk, hm]
          rw [h2]
          intro p hp
          rcases mem_setA hp with hp' | hp'
          · subst hp'
            show containsKey sess.teacherSocketId
              (setA sid lvl sess.clients) = false
            have hprev : containsKey sess.teacherSocketId sess.clients =
                false := ih (code, sess) (lookupA_mem hlk)
            have hTne : sess.teacherSocketId ≠ sid := by
              intro hEq
              rw [hEq, hm] at hprev
              cases hprev
            rw [containsKey_setA_ne hTne]
            exact hprev
          · exact ih p hp'
        · have h2 : (updateFeedback code sid lvl st).2 = st := by
            simp [updateFeedback, hl, hlk, hm]
          rw [h2]
          exact ih
    · have h2 : (updateFeedback code sid lvl st).2 = st := by
        simp [updateFeedback, hl]
      rw [h2]
      exact ih
  | removeSocketStep sid st h ih =>
    cases hi : lookupA sid st.socketToSession with
    | none =>
      have h2 : (removeSocket sid st).2 = st := by simp [removeSocket, hi]
      rw [h2]
      exact ih
    | some info0 =>
      cases hc : lookupA info0.code st.sessions with
      | none =>
        have h2 : (removeSocket sid st).2 =
            ⟨st.sessions, eraseA sid st.socketToSession⟩ := by
          simp [removeSocket, hi, hc]
        rw [h2]
        intro p hp
        exact ih p hp
      | some s1 =>
        by_cases hr : info0.role = "student"
        · have h2 : (removeSocket sid st).2 =
              ⟨setA info0.code { s1 with clients := eraseA sid s1.clients }
                 st.sessions,
               eraseA sid st.socketToSession⟩ := by
            simp [removeSocket, hi, hc, hr]
          rw [h2]
          intro p hp
          rcases mem_setA hp with hp' | hp'
          · subst hp'
            show containsKey s1.teacherSocketId (eraseA sid s1.clients) = false
            exact containsKey_eraseA_false (ih (info0.code, s1) (lookupA_mem hc))
          · exact ih p hp'
        · have h2 : (removeSocket sid st).2 =
              ⟨st.sessions, eraseA sid st.socketToSession⟩ := by
            simp [removeSocket, hi, hc, hr]
          rw [h2]
          intro p hp
          exact ih p hp
  | endSessionStep code st h ih =>
    cases hlk : lookupA code st.sessions with
    | none =>
      have h2 : (endSession code st).2 = st := by simp [endSession, hlk]
      rw [h2]
      exact ih
    | some sess =>
      have h2 : (endSession code st).2 =
          ⟨eraseA code st.sessions,
           removeAll (keysOf sess.clients)
             (eraseA sess.teacherSocketId st.socketToSession)⟩ := by
        simp [endSession, hlk]
      rw [h2]
      intro p hp
      exact ih p (mem_eraseA hp)

/-- Claim C1 (amended): the owner of a session never appears as a
student entry of that session's participant map, provided `addStudent`
is never called with the owner's own connection id — the unamended
claim fails, see `c1_counterexample`. -/
theorem c1_owner_not_participant (st : RegistryState) (h : ReachableOwn st)
    (code : String) (sess : Session)
    (hlk : lookupA code st.sessions = some sess) :
    containsKey sess.teacherSocketId sess.clients = false :=
  ownInv_reachable h (code, sess) (lookupA_mem hlk)

theorem reachableOwn_exSt1 : ReachableOwn exSt1 :=
  ReachableOwn.create [exDraw] "T" 0 initialRegistry "AAAAAA" exSt1
    ReachableOwn.init (by decide)

theorem reachableOwn_exSt2 : ReachableOwn exSt2 := by
  refine ReachableOwn.addStudentStep "AAAAAA" "S1" exSt1 reachableOwn_exSt1 ?_
  intro sess h
  have h0 : lookupA "AAAAAA" exSt1.sessions = some ⟨"T", [], 0⟩ := by decide
  rw [h0] at h
  have h1 := Option.some_inj.mp h
  rw [← h1]
  decide

/-- Witness for the amended C1 at a concrete guarded state. -/
theorem c1_witness :
    ReachableOwn exSt2 ∧
    lookupA "AAAAAA" exSt2.sessions = some ⟨"T", [("S1", "neutral")], 0⟩ ∧
    containsKey (Session.teacherSocketId ⟨"T", [("S1", "neutral")], 0⟩)
      (Session.clients ⟨"T", [("S1", "neutral")], 0⟩) = false :=
  ⟨reachableOwn_exSt2, by decide,
   c1_owner_not_participant exSt2 reachableOwn_exSt2 "AAAAAA"
     ⟨"T", [("S1", "neutral")], 0⟩ (by decide)⟩

/-! ## Claim C10 -/

theorem levels_reachable {st : RegistryState} (h : Reachable st) :
    ∀ p ∈ st.sessions, ∀ q ∈ p.2.clients, q.2 ∈ FEEDBACK_LEVELS := by
  induction h with
  | init => intro p hp; cases hp
  | create rng tid now st code st' h hc ih =>
    unfold createSession at hc
    cases hg : generateCode rng st.sessions with
    | none => rw [hg] at hc; simp at hc
    | some c =>
      rw [hg] at hc
      simp only [Option.some_inj, Prod.mk.injEq] at hc
      obtain ⟨hcode, hst⟩ := hc
      subst hst
      intro p hp
      rcases mem_setA hp with hp' | hp'
      · subst hp'
        intro q hq
        cases hq
      · exact ih p hp'
  | addStudentStep code sid st h ih =>
    cases hlk : lookupA code st.sessions with
    | none =>
      have h2 : (addStudent code sid st).2 = st := by simp [addStudent, hlk]
      rw [h2]
      exact ih
    | some sess =>
      have h2 : (addStudent code sid st).2 =
          ⟨setA code { sess with clients := setA sid "neutral" sess.clients }
             st.sessions,
           setA sid ⟨code, "student"⟩ st.socketToSession⟩ := by
        simp [addStudent, hlk]
      rw [h2]
      intro p hp
      rcases mem_setA hp with hp' | hp'
      · subst hp'
        intro q hq
        rcases mem_setA hq with hq' | hq'
        · subst hq'
          show ("neutral" : String) ∈ FEEDBACK_LEVELS
          decide
        · exact ih (code, sess) (lookupA_mem hlk) q hq'
      · exact ih p hp'
  | updateFeedbackStep code sid lvl st h ih =>
    by_cases hl : lvl ∈ FEEDBACK_LEVELS
    · cases hlk : lookupA code st.sessions with
      | none =>
        have h2 : (updateFeedback code sid lvl st).2 = st := by
          simp [updateFeedback, hl, hlk]
        rw [h2]
        exact ih
      | some sess =>
        by_cases hm : containsKey sid sess.clients
        · have h2 : (updateFeedback code sid lvl st).2 =
              ⟨setA code { sess with clients := setA sid lvl sess.clients }
                 st.sessions,
               st.socketToSession⟩ := by
            simp [updateFeedback, hl, hlk, hm]
          rw [h2]
          intro p hp
          rcases mem_setA hp with hp' | hp'
          · subst hp'
            intro q hq
            rcases mem_setA hq with hq' | hq'
            · subst hq'
              exact hl
            · exact ih (code, sess) (lookupA_mem hlk) q hq'
          · exact ih p hp'
        · have h2 : (updateFeedback code sid lvl st).2 = st := by
            simp [updateFeedback, hl, hlk, hm]
          rw [h2]
          exact ih
    · have h2 : (updateFeedback code sid lvl st).2 = st := by
        simp [updateFeedback, hl]
      rw [h2]
      exact ih
  | removeSocketStep sid st h ih =>
    cases hi : lookupA sid st.socketToSession with
    | none =>
      have h2 : (removeSocket sid st).2 = st := by simp [removeSocket, hi]
      rw [h2]
      exact ih
    | some info0 =>
      cases hc : lookupA info0.code st.sessions with
      | none =>
        have h2 : (removeSocket sid st).2 =
            ⟨st.sessions, eraseA sid st.socketToSession⟩ := by
          simp [removeSocket, hi, hc]
        rw [h2]
        intro p hp
        exact ih p hp
      | some s1 =>
        by_cases hr : info0.role = "student"
        · have h2 : (removeSocket sid st).2 =
              ⟨setA info0.code { s1 with clients := eraseA sid s1.clients }
                 st.sessions,
               eraseA sid st.socketToSession⟩ := by
            simp [removeSocket, hi, hc, hr]
          rw [h2]
          intro p hp
          rcases mem_setA hp with hp' | hp'
          · subst hp'
            intro q hq
            exact ih (info0.code, s1) (lookupA_mem hc) q (mem_eraseA hq)
          · exact ih p hp'
        · have h2 : (removeSocket sid st).2 =
              ⟨st.sessions, eraseA sid st.socketToSession⟩ := by
            simp [removeSocket, hi, hc, hr]
          rw [h2]
          intro p hp
          exact ih p hp
  | endSessionStep code st h ih =>
    cases hlk : lookupA code st.sessions with
    | none =>
      have h2 : (endSession code st).2 = st := by simp [endSession, hlk]
      rw [h2]
      exact ih
    | some sess =>
      have h2 : (endSession code st).2 =
          ⟨eraseA code st.sessions,
           removeAll (keysOf sess.clients)
             (eraseA sess.teacherSocketId st.socketToSession)⟩ := by
        simp [endSession, hlk]
      rw [h2]
      intro p hp
      exact ih p (mem_eraseA hp)

theorem countLevel_partition (l : List (String × String))
    (h : ∀ q ∈ l, q.2 ∈ FEEDBACK_LEVELS) :
    countLevel "gotit" l + countLevel "neutral" l + countLevel "confused" l +
      countLevel "lost" l = l.length := by
  induction l with
  | nil => simp [countLevel]
  | cons q t ih =>
    have hq := h q (List.mem_cons_self _ _)
    have ht : ∀ r ∈ t, r.2 ∈ FEEDBACK_LEVELS := fun r hr =>
      h r (List.mem_cons_of_mem _ hr)
    have hrec := ih ht
    simp only [countLevel_cons, List.length_cons]
    simp only [FEEDBACK_LEVELS, List.mem_cons, List.not_mem_nil,
      or_false] at hq
    rcases hq with h1 | h1 | h1 | h1 <;> simp [h1] <;> omega

/-- Claim C10 (confirmed): on every reachable state every stored level
is one of the four valid feedback levels, and hence for every existing
session the aggregate satisfies gotit + neutral + confused + lost =
total. -/
theorem c10_levels_invariant (st : RegistryState) (h : Reachable st)
    (code : String) (sess : Session)
    (hlk : lookupA code st.sessions = some sess) :
    (∀ q ∈ sess.clients, q.2 ∈ FEEDBACK_LEVELS) ∧
    (∀ a, getAggregate code st = some a →
      a.gotit + a.neutral + a.confused + a.lost = a.total) := by
  have hlv : ∀ q ∈ sess.clients, q.2 ∈ FEEDBACK_LEVELS :=
    levels_reachable h (code, sess) (lookupA_mem hlk)
  refine ⟨hlv, ?_⟩
  intro a ha
  have hagg : getAggregate code st = some
      ⟨countLevel "gotit" sess.clients, countLevel "neutral" sess.clients,
       countLevel "confused" sess.clients, countLevel "lost" sess.clients,
       sess.clients.length⟩ := by
    simp only [getAggregate, hlk]
    rw [foldl_bump_eq]
    simp
  rw [hagg] at ha
  have h2 := Option.some_inj.mp ha
  rw [← h2]
  exact countLevel_partition sess.clients hlv

/-- Witness for C10 at a concrete reachable state. -/
theorem c10_witness :
    Reachable exSt2 ∧
    lookupA "AAAAAA" exSt2.sessions = some ⟨"T", [("S1", "neutral")], 0⟩ ∧
    (∀ q ∈ Session.clients ⟨"T", [("S1", "neutral")], 0⟩,
      q.2 ∈ FEEDBACK_LEVELS) :=
  ⟨reachable_exSt2, by decide,
   (c10_levels_invariant exSt2 reachable_exSt2 "AAAAAA"
     ⟨"T", [("S1", "neutral")], 0⟩ (by decide)).1⟩

/-! ## Claim C5: the feedback throttle -/

theorem feedbackHandler_throttled {now : Int} {sid code lvl : String}
    {st : CoordState}
    (h : now - (lookupA sid st.lastFeedbackTime).getD 0 < THROTTLE_MS) :
    feedbackHandler now sid code lvl st = (false, st) := by
  simp [feedbackHandler, h]

theorem feedbackHandler_accepted {now : Int} {sid code lvl : String}
    {st : CoordState}
    (h : THROTTLE_MS ≤ now - (lookupA sid st.lastFeedbackTime).getD 0) :
    (feedbackHandler now sid code lvl st).1 = true ∧
    lookupA sid (feedbackHandler now sid code lvl st).2.lastFeedbackTime =
      some now := by
  have h' : ¬ (now - (lookupA sid st.lastFeedbackTime).getD 0 < THROTTLE_MS) :=
    not_lt.mpr h
  constructor
  · simp [feedbackHandler, h']
  · simp [feedbackHandler, h', lookupA_setA_self]

theorem feedbackHandler_false {now : Int} {sid code lvl : String}
    {st : CoordState} (h : (feedbackHandler now sid code lvl st).1 = false) :
    (feedbackHandler now sid code lvl st).2 = st := by
  by_cases hc : now - (lookupA sid st.lastFeedbackTime).getD 0 < THROTTLE_MS
  · simp [feedbackHandler, hc]
  · simp [feedbackHandler, hc] at h

theorem feedbackHandler_true {now : Int} {sid code lvl : String}
    {st : CoordState} (h : (feedbackHandler now sid code lvl st).1 = true) :
    THROTTLE_MS ≤ now - (lookupA sid st.lastFeedbackTime).getD 0 ∧
    lookupA sid (feedbackHandler now sid code lvl st).2.lastFeedbackTime =
      some now := by
  by_cases hc : now - (lookupA sid st.lastFeedbackTime).getD 0 < THROTTLE_MS
  · rw [feedbackHandler_throttled hc] at h
    cases h
  · exact ⟨not_lt.mp hc, (feedbackHandler_accepted (not_lt.mp hc)).2⟩

theorem feedbackHandler_lft_other (now : Int) (sid code lvl y : String)
    (st : CoordState) (hy : y ≠ sid) :
    lookupA y (feedbackHandler now sid code lvl st).2.lastFeedbackTime =
      lookupA y st.lastFeedbackTime := by
  by_cases hc : now - (lookupA sid st.lastFeedbackTime).getD 0 < THROTTLE_MS
  · simp [feedbackHandler, hc]
  · simp [feedbackHandler, hc, lookupA_setA_ne hy]

theorem runAccepted_ge (s : String) : ∀ (evs : List FbEvent)
    (st : CoordState) (e : FbEvent), e ∈ runAccepted st evs → e.sid = s →
    (lookupA s st.lastFeedbackTime).getD 0 + THROTTLE_MS ≤ e.time := by
  intro evs
  induction evs with
  | nil =>
    intro st e he _
    simp [runAccepted] at he
  | cons e0 rest ih =>
    intro st e he hes
    cases hacc : (feedbackHandler e0.time e0.sid e0.code e0.level st).1 with
    | false =>
      have hrun : runAccepted st (e0 :: rest) =
          runAccepted (feedbackHandler e0.time e0.sid e0.code e0.level st).2
            rest := by
        simp [runAccepted, hacc]
      rw [feedbackHandler_false hacc] at hrun
      rw [hrun] at he
      exact ih st e he hes
    | true =>
      have hrun : runAccepted st (e0 :: rest) =
          e0 :: runAccepted
            (feedbackHandler e0.time e0.sid e0.code e0.level st).2 rest := by
        simp [runAccepted, hacc]
      rw [hrun] at he
      have hbound := (feedbackHandler_true hacc).1
      rcases List.mem_cons.mp he with he' | he'
      · subst he'
        rw [← hes]
        omega
      · by_cases h0 : e0.sid = s
        · subst h0
          have hlk := (feedbackHandler_true hacc).2
          have hge := ih _ e he' hes
          rw [hlk] at hge
          simp only [Option.getD_some] at hge
          have h500 : (0 : Int) ≤ THROTTLE_MS := by decide
          omega
        · have hlk := feedbackHandler_lft_other e0.time e0.sid e0.code
            e0.level s st (fun hEq => h0 hEq.symm)
          have hge := ih _ e he' hes
          rw [hlk] at hge
          exact hge

theorem runAccepted_pairwise (s : String) : ∀ (evs : List FbEvent)
    (st : CoordState),
    List.Pairwise (fun a b => a.time + THROTTLE_MS ≤ b.time)
      ((runAccepted st evs).filter (fun e => e.sid = s)) := by
  intro evs
  induction evs with
  | nil => intro st; simp [runAccepted]
  | cons e0 rest ih =>
    intro st
    cases hacc : (feedbackHandler e0.time e0.sid e0.code e0.level st).1 with
    | false =>
      have hrun : runAccepted st (e0 :: rest) =
          runAccepted (feedbackHandler e0.time e0.sid e0.code e0.level st).2
            rest := by
        simp [runAccepted, hacc]
      rw [hrun]
      exact ih _
    | true =>
      have hrun : runAccepted st (e0 :: rest) =
          e0 :: runAccepted
            (feedbackHandler e0.time e0.sid e0.code e0.level st).2 rest := by
        simp [runAccepted, hacc]
      rw [hrun]
      by_cases h0 : e0.sid = s
      · subst h0
        rw [List.filter_cons_of_pos (by simp)]
        refine List.Pairwise.cons ?_ (ih _)
        intro b hb
        have hbmem : b ∈ runAccepted
            (feedbackHandler e0.time e0.sid e0.code e0.level st).2 rest :=
          (List.mem_filter.mp hb).1
        have hbsid : b.sid = e0.sid := by
          simpa using (List.mem_filter.mp hb).2
        have hge := runAccepted_ge e0.sid rest _ b hbmem hbsid
        have hlk := (feedbackHandler_true hacc).2
        rw [hlk] at hge
        simpa using hge
      · rw [List.filter_cons_of_neg (by simp [h0])]
        exact ih _

/-- Claim C5 (confirmed): a feedback event arriving less than
THROTTLE_MS after the connection's last accepted feedback is dropped
with no state change; one arriving at or past the threshold passes the
throttle; and over any trace of feedback events the accepted events of
one connection are pairwise at least THROTTLE_MS apart. -/
theorem c5_feedback_throttle :
    (∀ (now : Int) (sid code lvl : String) (st : CoordState) (last : Int),
      lookupA sid st.lastFeedbackTime = some last →
      now - last < THROTTLE_MS →
      feedbackHandler now sid code lvl st = (false, st)) ∧
    (∀ (now : Int) (sid code lvl : String) (st : CoordState) (last : Int),
      lookupA sid st.lastFeedbackTime = some last →
      THROTTLE_MS ≤ now - last →
      (feedbackHandler now sid code lvl st).1 = true) ∧
    (∀ (s : String) (st : CoordState) (evs : List FbEvent),
      List.Pairwise (fun a b => a.time + THROTTLE_MS ≤ b.time)
        ((runAccepted st evs).filter (fun e => e.sid = s))) := by
  refine ⟨?_, ?_, ?_⟩
  · intro now sid code lvl st last hlk hlt
    apply feedbackHandler_throttled
    rw [hlk]
    simpa using hlt
  · intro now sid code lvl st last hlk hge
    refine (feedbackHandler_accepted ?_).1
    rw [hlk]
    simpa using hge
  · intro s st evs
    exact runAccepted_pairwise s evs st

/-- A coordinator state with one recorded feedback time, for the C5
witness. -/
def c5St : CoordState := ⟨[("X", 1000)], initialRegistry⟩

/-- Witness for C5: a concrete throttled event and a concrete accepted
event. -/
theorem c5_witness :
    lookupA "X" c5St.lastFeedbackTime = some 1000 ∧
    (1300 : Int) - 1000 < THROTTLE_MS ∧
    feedbackHandler 1300 "X" "AAAAAA" "lost" c5St = (false, c5St) ∧
    THROTTLE_MS ≤ (1500 : Int) - 1000 ∧
    (feedbackHandler 1500 "X" "AAAAAA" "lost" c5St).1 = true :=
  ⟨by decide, by decide,
   c5_feedback_throttle.1 1300 "X" "AAAAAA" "lost" c5St 1000 (by decide)
     (by decide),
   by decide,
   c5_feedback_throttle.2.1 1500 "X" "AAAAAA" "lost" c5St 1000 (by decide)
     (by decide)⟩

end LectureFeedback
